import Mathlib

/-!
Verification development for the Express forms-and-data repository.

The repository is a small Express.js CRUD + search application:
* `storages/usersStorage.js` — an in-memory store (a JS object keyed by id plus
  a monotonically incremented id counter);
* `controller/usersController.js` — request handlers using express-validator;
* `routes/usersRouter.js` — the route table.

This file is a shallow embedding of that code.  JS strings are Lean `String`
(lists of characters; the application only ever handles ASCII form data),
JS numbers used as ids are `Nat`, the possibly-`NaN` result of the `toInt`
sanitizer is the explicit type `JSNum`, absent (`undefined`) form fields and
query parameters are `Option`, and the crash of dereferencing `undefined`
is an `Option.none` result.
-/

namespace ExpressForms

/-- The result of the express-validator `toInt` sanitizer: `parseInt` yields
either an integer or `NaN`. -/
inductive JSNum where
  | int (n : Int)
  | nan
deriving DecidableEq, Repr

/-- The form body of a create/update submission
(`req.body`: firstName, lastName, email required by the form; age and bio
optional, i.e. possibly `undefined`). -/
structure Body where
  firstName : String
  lastName : String
  email : String
  age : Option String
  bio : Option String
deriving DecidableEq, Repr

/-- The sanitized field values the controller destructures from `req.body`
after the validation chains ran their `trim` / `toInt` sanitizers. -/
structure Fields where
  firstName : String
  lastName : String
  email : String
  age : Option JSNum
  bio : Option String
deriving DecidableEq, Repr

/-- A stored user record: `{ id, firstName, lastName, email, age, bio }`,
as built by `usersStorage.addUser` / `usersStorage.updateUser`. -/
structure User where
  id : Nat
  firstName : String
  lastName : String
  email : String
  age : Option JSNum
  bio : Option String
deriving DecidableEq, Repr

/-- JS whitespace characters relevant here (ASCII subset of the `\s` class
used by `String.prototype.trim`). -/
def jsIsWS (c : Char) : Bool :=
  c.toNat == 32 || c.toNat == 9 || c.toNat == 10 ||
    c.toNat == 11 || c.toNat == 12 || c.toNat == 13

/-- ASCII decimal digit (validator.js `isInt` / JS `parseInt` digits). -/
def jsIsDigitC (c : Char) : Bool :=
  48 ≤ c.toNat && c.toNat ≤ 57

/-- ASCII letter: validator.js `isAlpha` with the default en-US locale
matches `[A-Za-z]+`. -/
def jsIsAlphaC (c : Char) : Bool :=
  (65 ≤ c.toNat && c.toNat ≤ 90) || (97 ≤ c.toNat && c.toNat ≤ 122)

/-- `String.prototype.trim` on a character list: drop whitespace from both
ends. -/
def jsTrimL (l : List Char) : List Char :=
  ((l.dropWhile jsIsWS).reverse.dropWhile jsIsWS).reverse

/-- The `trim()` sanitizer of express-validator (JS `String.prototype.trim`). -/
def jsTrim (s : String) : String :=
  ⟨jsTrimL s.data⟩

/-- Value of a (non-empty) digit sequence. -/
def digitsVal : List Char → Nat → Nat
  | [], acc => acc
  | c :: cs, acc => digitsVal cs (acc * 10 + (c.toNat - 48))

/-- The leading digit run of a string, as a number; `none` when the string
does not start with a digit. -/
def leadDigits (l : List Char) : Option Nat :=
  let ds := l.takeWhile jsIsDigitC
  if ds.isEmpty then none else some (digitsVal ds 0)

/-- JS `parseInt(s, 10)` on an already-trimmed string: optional sign followed
by at least one digit; any trailing garbage is ignored; otherwise `NaN`. -/
def parseInt10 (s : String) : JSNum :=
  match s.data with
  | '-' :: rest =>
    match leadDigits rest with
    | some n => .int (-(n : Int))
    | none => .nan
  | '+' :: rest =>
    match leadDigits rest with
    | some n => .int (n : Int)
    | none => .nan
  | l =>
    match leadDigits l with
    | some n => .int (n : Int)
    | none => .nan

/-- The sanitizers of the `validateUser` chains applied to the body:
`trim()` on firstName, lastName, email; `optional().trim().toInt()` on age;
`optional().trim()` on bio.  (express-validator sanitizers mutate `req.body`,
so these are the values the controller later destructures.) -/
def sanitize (b : Body) : Fields :=
  { firstName := jsTrim b.firstName
    lastName := jsTrim b.lastName
    email := jsTrim b.email
    age := b.age.map (fun a => parseInt10 (jsTrim a))
    bio := b.bio.map jsTrim }

/- Error message fragments, verbatim from usersController.js. -/

def alphaErr : String := "must only contain letters."
def lengthErr : String := "must be between 1 and 10 characters."
def emailErr : String := "Must be an email"
def ageErr : String := "Must be a number between 18 and 200"
def bioErr : String := "Must be below 200 characters"

/-- validator.js `isAlpha` (default locale): non-empty and every character a
letter. -/
def isAlphaStr (s : String) : Bool :=
  !s.data.isEmpty && s.data.all jsIsAlphaC

/-- validator.js `isLength` with `min 1, max 10`. -/
def lenOK (s : String) : Bool :=
  1 ≤ s.length && s.length ≤ 10

/-- Does the string contain a decimal digit? -/
def strHasDigit (s : String) : Bool :=
  s.data.any jsIsDigitC

/-- Split a character list at every occurrence of a separator character. -/
def splitOnC (c : Char) : List Char → List (List Char)
  | [] => [[]]
  | x :: xs =>
    if x == c then [] :: splitOnC c xs
    else
      match splitOnC c xs with
      | [] => [[x]]
      | r :: rs => (x :: r) :: rs

/-- Modelled from the spec: the email rule is "required, must match a standard
email syntax"; the implementation delegates to the external validator.js
`isEmail`, which is a third-party dependency and not part of this repository.
Simplified model: exactly one at-sign, non-empty local part, and a domain of
at least two non-empty dot-separated labels. -/
def isEmail (s : String) : Bool :=
  match splitOnC '@' s.data with
  | [l, d] =>
    let labels := splitOnC '.' d
    !l.isEmpty && decide (2 ≤ labels.length) && labels.all (fun p => !p.isEmpty)
  | _ => false

/-- `body('age').optional().trim().toInt().isInt(min 18, max 200)`:
skipped when the field is `undefined`; otherwise the sanitized `JSNum` must
be an integer in `[18, 200]` (`NaN` fails). -/
def validateAge : Option JSNum → List String
  | none => []
  | some (.int n) => if 18 ≤ n && n ≤ 200 then [] else ["Age " ++ ageErr]
  | some .nan => ["Age " ++ ageErr]

/-- `body('bio').optional().trim().isLength(max 200)`. -/
def validateBio : Option String → List String
  | none => []
  | some b => if b.length ≤ 200 then [] else ["Bio " ++ bioErr]

/-- The `validateUser` middleware array: all rule violations over all fields
are collected, in chain order, with the messages attached by `withMessage`. -/
def validateUser (f : Fields) : List String :=
  (if isAlphaStr f.firstName then [] else ["First name " ++ alphaErr]) ++
  (if lenOK f.firstName then [] else ["First name " ++ lengthErr]) ++
  (if isAlphaStr f.lastName then [] else ["Last name " ++ alphaErr]) ++
  (if lenOK f.lastName then [] else ["Last name " ++ lengthErr]) ++
  (if isEmail f.email then [] else ["Email " ++ emailErr]) ++
  validateAge f.age ++ validateBio f.bio

/-! ## The store (storages/usersStorage.js)

`this.storage` is a JS object keyed by the numeric id; JS objects with
integer-like keys enumerate (`Object.values`) in ascending numeric key
order, so the storage is embedded as an association list kept sorted by
key, with unconditional keyed insertion (`this.storage[id] = record`)
and keyed removal (`delete this.storage[id]`). -/

/-- Keyed assignment `storage[k] = v` on a key-sorted association list:
replaces the entry at `k` if present, otherwise inserts at the sorted
position. -/
def insertSorted (k : Nat) (v : User) : List (Nat × User) → List (Nat × User)
  | [] => [(k, v)]
  | (k2, v2) :: rest =>
    if k < k2 then (k, v) :: (k2, v2) :: rest
    else if k = k2 then (k, v) :: rest
    else (k2, v2) :: insertSorted k v rest

/-- Keyed lookup `storage[k]`. -/
def lookupKey : List (Nat × User) → Nat → Option User
  | [], _ => none
  | (k2, v) :: rest, k => if k2 = k then some v else lookupKey rest k

/-- The `usersStorage` instance state: the keyed `storage` object and the
`id` counter (constructor: `this.storage = empty object; this.id = 0`). -/
structure Store where
  storage : List (Nat × User)
  id : Nat
deriving DecidableEq, Repr

/-- The freshly constructed store. -/
def emptyStore : Store := { storage := [], id := 0 }

/-- The record object `{ id, firstName, lastName, email, age, bio }` built
by `addUser` / `updateUser` from an id and the destructured fields. -/
def mkUser (i : Nat) (f : Fields) : User :=
  { id := i, firstName := f.firstName, lastName := f.lastName,
    email := f.email, age := f.age, bio := f.bio }

/-- `addUser`: store the record at the current counter value, then increment
the counter. -/
def addUser (s : Store) (f : Fields) : Store :=
  { storage := insertSorted s.id (mkUser s.id f) s.storage, id := s.id + 1 }

/-- `getUsers`: `Object.values(this.storage)`. -/
def getUsers (s : Store) : List User :=
  s.storage.map Prod.snd

/-- `getUser(id)`: `this.storage[id]`, `undefined` (`none`) when absent. -/
def getUser (s : Store) (i : Nat) : Option User :=
  lookupKey s.storage i

/-- `updateUser(id, fields)`: unconditional keyed assignment
`this.storage[id] = { id, ...fields }` — no existence check. -/
def updateUser (s : Store) (i : Nat) (f : Fields) : Store :=
  { s with storage := insertSorted i (mkUser i f) s.storage }

/-- `deleteUser(id)`: `delete this.storage[id]`. -/
def deleteUser (s : Store) (i : Nat) : Store :=
  { s with storage := s.storage.filter (fun p => !(p.1 == i)) }

/-! ## Handlers (controller/usersController.js) -/

/-- The rendered responses the handlers can produce (one constructor per
`res.render` / `res.redirect` call shape in the controller). -/
inductive Rendered where
  | createForm (status : Nat) (errors : List String)
  | updateForm (status : Nat) (user : Option User) (errors : List String)
  | indexView (users : List User)
  | searchView (status : Nat) (users : List User) (message : Option String)
  | redirectTo (location : String)
deriving DecidableEq, Repr

/-- The user list a rendered response carries. -/
def Rendered.usersOf : Rendered → List User
  | .indexView us => us
  | .searchView _ us _ => us
  | _ => []

/-- `usersListGet`: render the index view with all users. -/
def usersListGet (s : Store) : Rendered :=
  .indexView (getUsers s)

/-- `usersCreatePost`: run the validators; on errors respond 400 with the
error array and leave the store alone; otherwise `addUser` the destructured
sanitized body and redirect to `/`. -/
def usersCreatePost (s : Store) (raw : Body) : Store × Rendered :=
  let b := sanitize raw
  let errors := validateUser b
  if !errors.isEmpty then (s, .createForm 400 errors)
  else (addUser s b, .redirectTo "/")

/-- `usersUpdatePost`: fetch the existing record, run the validators; on
errors respond 400 with that record and the error array, leaving the store
alone; otherwise `updateUser` at the path id and redirect to `/`. -/
def usersUpdatePost (s : Store) (i : Nat) (raw : Body) : Store × Rendered :=
  let user := getUser s i
  let b := sanitize raw
  let errors := validateUser b
  if !errors.isEmpty then (s, .updateForm 400 user errors)
  else (updateUser s i b, .redirectTo "/")

/-- `userDeletePost`: `usersStorage.deleteUser(req.params.id)` then redirect
to `/`. -/
def userDeletePost (s : Store) (i : Nat) : Store × Rendered :=
  (deleteUser s i, .redirectTo "/")

/-- JS `String.prototype.toLowerCase` on one character (ASCII: map A-Z to
a-z). -/
def jsToLowerC (c : Char) : Char :=
  if 65 ≤ c.toNat && c.toNat ≤ 90 then Char.ofNat (c.toNat + 32) else c

/-- JS `String.prototype.toLowerCase` (on the ASCII data this app handles). -/
def jsToLower (s : String) : String :=
  ⟨s.data.map jsToLowerC⟩

/-- JS `hay.includes(needle)`: does `needle` occur contiguously in `hay`?
Helper: does the first list begin the second? -/
def listLead : List Char → List Char → Bool
  | [], _ => true
  | _ :: _, [] => false
  | a :: as, b :: bs => a == b && listLead as bs

/-- JS `hay.includes(needle)` on character lists. -/
def includesL : List Char → List Char → Bool
  | [], needle => needle.isEmpty
  | h :: t, needle => listLead needle (h :: t) || includesL t needle

/-- JS `hay.includes(needle)` on strings. -/
def jsIncludes (hay needle : String) : Bool :=
  includesL hay.data needle.data

/-- The `results` filter of `userSearchGet`: users whose lowercased first or
last name includes the trimmed, lowercased search term. -/
def searchMatches (s : Store) (q : String) : List User :=
  let searchTerm := jsToLower (jsTrim q)
  (getUsers s).filter
    (fun u => jsIncludes (jsToLower u.firstName) searchTerm ||
              jsIncludes (jsToLower u.lastName) searchTerm)

/-- The body of `userSearchGet` once the search term has been read: render
the results with status 200 when non-empty, otherwise respond 404 with an
empty list and the not-found message. -/
def searchUsers (s : Store) (q : String) : Rendered :=
  let results := searchMatches s q
  if results.length > 0 then .searchView 200 results none
  else .searchView 404 [] (some "404 - No users found.")

/-- `userSearchGet`: `req.query.name.trim().toLowerCase()` dereferences the
`name` query parameter before anything else; when the parameter is absent
(`undefined`) that dereference throws, so no response value is produced
(`none`). -/
def userSearchGet (s : Store) (nameParam : Option String) : Option Rendered :=
  nameParam.map (fun q => searchUsers s q)

/-! ## Router (routes/usersRouter.js) -/

/-- HTTP methods used by the router. -/
inductive Method where
  | get
  | post
deriving DecidableEq, Repr

/-- The request paths the route table distinguishes. -/
inductive ReqPath where
  | root
  | createPath
  | updatePath (i : Nat)
  | deletePath (i : Nat)
  | searchPath
deriving DecidableEq, Repr

/-- Tags naming the controller callbacks. -/
inductive RouteTag where
  | listGet
  | createGet
  | createPost
  | updateGet
  | updatePost
  | searchGet
deriving DecidableEq, Repr

/-- The route table of usersRouter.js: for each method/path, the list of
callbacks registered for it.  `usersRouter.post(&apos;/:id/delete&apos;)` is called
with NO callback argument, so the delete route is registered with an empty
callback list; the `userDeletePost` controller is never referenced by the
router. -/
def routeCallbacks : Method → ReqPath → List RouteTag
  | .get, .root => [.listGet]
  | .get, .createPath => [.createGet]
  | .post, .createPath => [.createPost]
  | .get, .updatePath _ => [.updateGet]
  | .post, .updatePath _ => [.updatePost]
  | .post, .deletePath _ => []
  | .get, .searchPath => [.searchGet]
  | _, _ => []

/-- Express dispatch: the first callback of the matched route runs; a route
with no callbacks falls through (the framework eventually answers 404 and no
controller runs). -/
def dispatch (m : Method) (p : ReqPath) : Option RouteTag :=
  (routeCallbacks m p).head?

/-! ## Operation sequences over the store -/

/-- A store operation: the three mutating storage methods. -/
inductive Op where
  | add (f : Fields)
  | update (i : Nat) (f : Fields)
  | del (i : Nat)

/-- Apply one operation, also recording (second component) every id the
store itself assigned via `addUser`. -/
def applyOpA : Store × List Nat → Op → Store × List Nat
  | (s, as), .add f => (addUser s f, as ++ [s.id])
  | (s, as), .update i f => (updateUser s i f, as)
  | (s, as), .del i => (deleteUser s i, as)

/-- Run a sequence of operations from the fresh store, tracking assigned
ids. -/
def runA (ops : List Op) : Store × List Nat :=
  ops.foldl applyOpA (emptyStore, [])

/-- The store reached by a sequence of operations. -/
def runStore (ops : List Op) : Store :=
  (runA ops).1

/-- The ids assigned by `addUser` along a sequence of operations, in
assignment order. -/
def runAssigned (ops : List Op) : List Nat :=
  (runA ops).2

/-! ## Sample data -/

/-- Sample sanitized fields. -/
def sampleFields : Fields :=
  { firstName := "Ada", lastName := "Lovelace", email := "ada@mail.com",
    age := none, bio := none }

/-- A second, distinct sample of sanitized fields. -/
def sampleFields2 : Fields :=
  { firstName := "Grace", lastName := "Hopper", email := "grace@mail.com",
    age := none, bio := none }

/-- The record with first name Anna from the search example. -/
def annaUser : User :=
  { id := 0, firstName := "Anna", lastName := "Keys", email := "anna@mail.com",
    age := none, bio := none }

/-- The record with first name Bob from the search example. -/
def bobUser : User :=
  { id := 1, firstName := "Bob", lastName := "Smith", email := "bob@mail.com",
    age := none, bio := none }

/-- A store holding exactly the Anna and Bob records. -/
def annaBobStore : Store :=
  { storage := [(0, annaUser), (1, bobUser)], id := 2 }

/-! ## Store lemmas -/

theorem lookupKey_insertSorted (k : Nat) (v : User) :
    ∀ l : List (Nat × User), lookupKey (insertSorted k v l) k = some v := by
  intro l
  induction l with
  | nil => simp [insertSorted, lookupKey]
  | cons hd tl ih =>
    obtain ⟨k2, v2⟩ := hd
    by_cases hlt : k < k2
    · simp [insertSorted, hlt, lookupKey]
    · by_cases heq : k = k2
      · simp [insertSorted, hlt, heq, lookupKey]
      · have hne : ¬ k2 = k := fun h => heq h.symm
        simp [insertSorted, hlt, heq, lookupKey, hne, ih]

theorem mem_insertSorted {k : Nat} {v : User} {p : Nat × User} :
    ∀ {l : List (Nat × User)}, p ∈ insertSorted k v l → p = (k, v) ∨ p ∈ l := by
  intro l
  induction l with
  | nil => simp [insertSorted]
  | cons hd tl ih =>
    obtain ⟨k2, v2⟩ := hd
    by_cases hlt : k < k2
    · simp only [insertSorted, if_pos hlt, List.mem_cons]
      tauto
    · by_cases heq : k = k2
      · simp only [insertSorted, if_neg hlt, if_pos heq, List.mem_cons]
        tauto
      · simp only [insertSorted, if_neg hlt, if_neg heq, List.mem_cons]
        intro h
        rcases h with h | h
        · tauto
        · rcases ih h with h2 | h2 <;> tauto

theorem self_mem_insertSorted (k : Nat) (v : User) :
    ∀ l : List (Nat × User), (k, v) ∈ insertSorted k v l := by
  intro l
  induction l with
  | nil => simp [insertSorted]
  | cons hd tl ih =>
    obtain ⟨k2, v2⟩ := hd
    by_cases hlt : k < k2
    · simp only [insertSorted, if_pos hlt, List.mem_cons]
      tauto
    · by_cases heq : k = k2
      · simp only [insertSorted, if_neg hlt, if_pos heq, List.mem_cons]
        tauto
      · simp only [insertSorted, if_neg hlt, if_neg heq, List.mem_cons]
        exact Or.inr ih

theorem lookupKey_filter_self (i : Nat) :
    ∀ l : List (Nat × User), lookupKey (l.filter (fun p => !(p.1 == i))) i = none := by
  intro l
  induction l with
  | nil => simp [lookupKey]
  | cons hd tl ih =>
    obtain ⟨k2, v2⟩ := hd
    by_cases h : k2 = i
    · simpa [List.filter_cons, h] using ih
    · have hb : (!((k2, v2).1 == i)) = true := by simp [h]
      simp only [List.filter_cons, hb, if_pos]
      simpa [lookupKey, h] using ih

theorem filter_key_ne_idem (i : Nat) :
    ∀ l : List (Nat × User),
      (l.filter (fun p => !(p.1 == i))).filter (fun p => !(p.1 == i))
        = l.filter (fun p => !(p.1 == i)) := by
  intro l
  induction l with
  | nil => simp
  | cons hd tl ih =>
    obtain ⟨k2, v2⟩ := hd
    by_cases h : k2 = i
    · simp [List.filter_cons, h, ih]
    · have hb : (!((k2, v2).1 == i)) = true := by simp [h]
      simp only [List.filter_cons, hb, if_pos]
      simp [hb, ih]

/-! ## Claim theorems (simple store claims) -/

/-- C9: for every store state and id, `deleteUser` followed by `getUser`
returns absent, and `deleteUser` is idempotent: deleting twice yields the
same store state as deleting once (and the second call is an ordinary
no-op, not an error). -/
theorem delete_get_absent_and_idempotent (s : Store) (i : Nat) :
    getUser (deleteUser s i) i = none ∧
    deleteUser (deleteUser s i) i = deleteUser s i := by
  constructor
  · exact lookupKey_filter_self i s.storage
  · show ({ s with storage := _ } : Store) = { s with storage := _ }
    simp [deleteUser, filter_key_ne_idem]

/-- C5: for an id present in the store, `updateUser id newFields` followed by
`getUser id` returns exactly the record built from `newFields` and `id`; the
record is rebuilt from scratch, so no field of the previously stored record
survives. -/
theorem update_get_full_replace (s : Store) (i : Nat) (f : Fields)
    (h : (getUser s i).isSome = true) :
    getUser (updateUser s i f) i = some (mkUser i f) := by
  have _ := h
  exact lookupKey_insertSorted i (mkUser i f) s.storage

/-- Witness for C5 at a concrete input: store the sample record, then
replace it. -/
theorem update_get_full_replace_witness :
    getUser (updateUser (runStore [Op.add sampleFields]) 0 sampleFields2) 0
      = some (mkUser 0 sampleFields2) :=
  update_get_full_replace (runStore [Op.add sampleFields]) 0 sampleFields2 (by decide)

/-- C1 counterexample: on the empty store, id 5 is absent, yet after
`updateUser 5 fields` a lookup of id 5 does NOT return absent —
`updateUser` writes unconditionally, so the claim that later lookups
simply return absent is false. -/
theorem update_absent_counterexample :
    getUser emptyStore 5 = none ∧
    getUser (updateUser emptyStore 5 sampleFields) 5 ≠ none := by
  decide

/-- C1 amended: for every id absent from the store, `updateUser id fields`
creates a record at that id (an upsert): a subsequent `getUser id` returns
the record built from `fields` together with `id`, not absent. -/
theorem update_absent_creates (s : Store) (i : Nat) (f : Fields)
    (h : getUser s i = none) :
    getUser (updateUser s i f) i = some (mkUser i f) := by
  have _ := h
  exact lookupKey_insertSorted i (mkUser i f) s.storage

/-- Witness for the amended C1 at a concrete input: id 5 is absent from the
empty store and update creates it. -/
theorem update_absent_creates_witness :
    getUser (updateUser emptyStore 5 sampleFields) 5 = some (mkUser 5 sampleFields) :=
  update_absent_creates emptyStore 5 sampleFields (by decide)

/-- C2 (code bug): the route table registers the POST delete path with no
callback at all, so dispatch produces no handler for it (the framework 404s
and the store is untouched), even though the `userDeletePost` controller —
which would delete the record and redirect to `/` — exists in the
controller module. -/
theorem delete_route_unwired :
    (∀ i : Nat, routeCallbacks Method.post (ReqPath.deletePath i) = [] ∧
        dispatch Method.post (ReqPath.deletePath i) = none) ∧
    userDeletePost (runStore [Op.add sampleFields]) 0
      = (deleteUser (runStore [Op.add sampleFields]) 0, Rendered.redirectTo "/") := by
  exact ⟨fun i => ⟨rfl, rfl⟩, rfl⟩

/-- C10: when the `name` query parameter is absent, the search handler
produces no response value at all (the dereference of the missing parameter
fails before any matching is attempted). -/
theorem search_missing_param_no_response (s : Store) :
    userSearchGet s none = none := rfl

/-! ## Character and trimming lemmas for the validator -/

theorem jsIsDigitC_not_alpha {c : Char} (h : jsIsDigitC c = true) :
    jsIsAlphaC c = false := by
  simp only [jsIsDigitC, Bool.and_eq_true, decide_eq_true_eq] at h
  simp only [jsIsAlphaC, Bool.or_eq_false_iff, Bool.and_eq_false_iff]
  constructor <;> [left; left] <;> simp <;> omega

theorem jsIsDigitC_not_ws {c : Char} (h : jsIsDigitC c = true) :
    jsIsWS c = false := by
  simp only [jsIsDigitC, Bool.and_eq_true, decide_eq_true_eq] at h
  simp only [jsIsWS, Bool.or_eq_false_iff, beq_eq_false_iff_ne, ne_eq]
  omega

theorem mem_dropWhile_of_not_ws {c : Char} (hc : jsIsWS c = false) :
    ∀ {l : List Char}, c ∈ l → c ∈ l.dropWhile jsIsWS := by
  intro l
  induction l with
  | nil => simp
  | cons hd tl ih =>
    intro h
    by_cases hw : jsIsWS hd = true
    · rw [List.dropWhile_cons_of_pos hw]
      rcases List.mem_cons.mp h with h1 | h1
      · exact absurd (h1 ▸ hc) (by simp [hw])
      · exact ih h1
    · rw [List.dropWhile_cons_of_neg hw]
      exact h

theorem mem_jsTrimL_of_digit {c : Char} {l : List Char}
    (hc : jsIsDigitC c = true) (h : c ∈ l) : c ∈ jsTrimL l := by
  have hw := jsIsDigitC_not_ws hc
  unfold jsTrimL
  rw [List.mem_reverse]
  apply mem_dropWhile_of_not_ws hw
  rw [List.mem_reverse]
  exact mem_dropWhile_of_not_ws hw h

/-- A string containing a digit is not accepted by `isAlphaStr`. -/
theorem hasDigit_not_alphaStr {s : String} (h : strHasDigit s = true) :
    isAlphaStr s = false := by
  rcases List.any_eq_true.mp h with ⟨c, hc, hd⟩
  simp only [isAlphaStr, Bool.and_eq_false_iff]
  right
  apply Bool.eq_false_iff.mpr
  intro hall
  have hcall := List.all_eq_true.mp hall c hc
  rw [jsIsDigitC_not_alpha hd] at hcall
  exact Bool.false_ne_true hcall

/-- Trimming preserves the presence of a digit. -/
theorem hasDigit_jsTrim {s : String} (h : strHasDigit s = true) :
    strHasDigit (jsTrim s) = true := by
  rcases List.any_eq_true.mp h with ⟨c, hc, hd⟩
  exact List.any_eq_true.mpr ⟨c, mem_jsTrimL_of_digit hd hc, hd⟩

theorem firstAlpha_mem {f : Fields} (h : isAlphaStr f.firstName = false) :
    ("First name " ++ alphaErr) ∈ validateUser f := by
  simp [validateUser, h]

theorem firstLength_mem {f : Fields} (h : lenOK f.firstName = false) :
    ("First name " ++ lengthErr) ∈ validateUser f := by
  simp [validateUser, h]

theorem lastAlpha_mem {f : Fields} (h : isAlphaStr f.lastName = false) :
    ("Last name " ++ alphaErr) ∈ validateUser f := by
  simp [validateUser, h]

theorem lastLength_mem {f : Fields} (h : lenOK f.lastName = false) :
    ("Last name " ++ lengthErr) ∈ validateUser f := by
  simp [validateUser, h]

theorem lenOK_eq_false {s : String} (h : s.length = 0 ∨ 10 < s.length) :
    lenOK s = false := by
  rcases h with h | h <;> simp [lenOK] <;> omega

/-! ## C4: validation failures are reported and never reach the store -/

/-- C4: for every create or update submission whose firstName or lastName
contains a digit, or trims to length 0, or trims to length above 10, the
handler responds with status 400 carrying the collected error messages —
among them the message corresponding to the violated rule — and the store
after the request is exactly the store before it. -/
theorem validation_failure_reported_store_preserved (s : Store) (i : Nat) (raw : Body)
    (h : strHasDigit raw.firstName = true ∨ (jsTrim raw.firstName).length = 0 ∨
         10 < (jsTrim raw.firstName).length ∨ strHasDigit raw.lastName = true ∨
         (jsTrim raw.lastName).length = 0 ∨ 10 < (jsTrim raw.lastName).length) :
    (usersCreatePost s raw).1 = s ∧
    (usersCreatePost s raw).2 = Rendered.createForm 400 (validateUser (sanitize raw)) ∧
    (usersUpdatePost s i raw).1 = s ∧
    (usersUpdatePost s i raw).2
      = Rendered.updateForm 400 (getUser s i) (validateUser (sanitize raw)) ∧
    (strHasDigit raw.firstName = true →
      ("First name " ++ alphaErr) ∈ validateUser (sanitize raw)) ∧
    ((jsTrim raw.firstName).length = 0 ∨ 10 < (jsTrim raw.firstName).length →
      ("First name " ++ lengthErr) ∈ validateUser (sanitize raw)) ∧
    (strHasDigit raw.lastName = true →
      ("Last name " ++ alphaErr) ∈ validateUser (sanitize raw)) ∧
    ((jsTrim raw.lastName).length = 0 ∨ 10 < (jsTrim raw.lastName).length →
      ("Last name " ++ lengthErr) ∈ validateUser (sanitize raw)) := by
  have hfn : (sanitize raw).firstName = jsTrim raw.firstName := rfl
  have hln : (sanitize raw).lastName = jsTrim raw.lastName := rfl
  have imp1 : strHasDigit raw.firstName = true →
      ("First name " ++ alphaErr) ∈ validateUser (sanitize raw) := by
    intro hd
    exact firstAlpha_mem (by rw [hfn]; exact hasDigit_not_alphaStr (hasDigit_jsTrim hd))
  have imp2 : (jsTrim raw.firstName).length = 0 ∨ 10 < (jsTrim raw.firstName).length →
      ("First name " ++ lengthErr) ∈ validateUser (sanitize raw) := by
    intro hl
    exact firstLength_mem (by rw [hfn]; exact lenOK_eq_false hl)
  have imp3 : strHasDigit raw.lastName = true →
      ("Last name " ++ alphaErr) ∈ validateUser (sanitize raw) := by
    intro hd
    exact lastAlpha_mem (by rw [hln]; exact hasDigit_not_alphaStr (hasDigit_jsTrim hd))
  have imp4 : (jsTrim raw.lastName).length = 0 ∨ 10 < (jsTrim raw.lastName).length →
      ("Last name " ++ lengthErr) ∈ validateUser (sanitize raw) := by
    intro hl
    exact lastLength_mem (by rw [hln]; exact lenOK_eq_false hl)
  have hne : validateUser (sanitize raw) ≠ [] := by
    rcases h with h | h | h | h | h | h
    · exact List.ne_nil_of_mem (imp1 h)
    · exact List.ne_nil_of_mem (imp2 (Or.inl h))
    · exact List.ne_nil_of_mem (imp2 (Or.inr h))
    · exact List.ne_nil_of_mem (imp3 h)
    · exact List.ne_nil_of_mem (imp4 (Or.inl h))
    · exact List.ne_nil_of_mem (imp4 (Or.inr h))
  have hemp : (validateUser (sanitize raw)).isEmpty = false := by
    cases hc : validateUser (sanitize raw) with
    | nil => exact absurd hc hne
    | cons a t => rfl
  refine ⟨?_, ?_, ?_, ?_, imp1, imp2, imp3, imp4⟩ <;>
    simp [usersCreatePost, usersUpdatePost, hemp]

/-- Witness for C4 at a concrete input: a first name with a digit leaves the
empty store unchanged through the create handler, with the alphabetic-only
message reported. -/
theorem validation_failure_witness :
    (usersCreatePost emptyStore
        { firstName := "B0b", lastName := "Smith", email := "a@b.ca",
          age := none, bio := none }).1 = emptyStore :=
  (validation_failure_reported_store_preserved emptyStore 0
    { firstName := "B0b", lastName := "Smith", email := "a@b.ca",
      age := none, bio := none } (Or.inl (by decide))).1

/-! ## Substring containment: `includes` computes occurrence as a
contiguous segment -/

theorem listLead_iff (n : List Char) :
    ∀ h, listLead n h = true ↔ ∃ t, n ++ t = h := by
  induction n with
  | nil => intro h; simp [listLead]
  | cons a as ih =>
    intro h
    cases h with
    | nil => simp [listLead]
    | cons b bs =>
      simp only [listLead, Bool.and_eq_true, beq_iff_eq, List.cons_append]
      constructor
      · rintro ⟨rfl, hl⟩
        rcases (ih bs).mp hl with ⟨t, rfl⟩
        exact ⟨t, rfl⟩
      · rintro ⟨t, ht⟩
        injection ht with h1 h2
        exact ⟨h1, (ih bs).mpr ⟨t, h2⟩⟩

theorem includesL_iff (n : List Char) :
    ∀ h, includesL h n = true ↔ ∃ l r, l ++ n ++ r = h := by
  intro h
  induction h with
  | nil =>
    show n.isEmpty = true ↔ _
    rw [List.isEmpty_iff]
    constructor
    · rintro rfl
      exact ⟨[], [], rfl⟩
    · rintro ⟨l, r, hl⟩
      exact (List.append_eq_nil.mp (List.append_eq_nil.mp hl).1).2
  | cons c t ih =>
    simp only [includesL, Bool.or_eq_true]
    constructor
    · rintro (hp | hrec)
      · rcases (listLead_iff n (c :: t)).mp hp with ⟨r, hr⟩
        exact ⟨[], r, by simpa using hr⟩
      · rcases ih.mp hrec with ⟨l, r, rfl⟩
        exact ⟨c :: l, r, rfl⟩
    · rintro ⟨l, r, hl⟩
      cases l with
      | nil =>
        left
        exact (listLead_iff n (c :: t)).mpr ⟨r, by simpa using hl⟩
      | cons x xs =>
        right
        injection hl with h1 h2
        exact ih.mpr ⟨xs, r, h2⟩

/-- Membership in the search filter, written with explicit contiguous-segment
containment. -/
theorem mem_searchMatches_iff {s : Store} {q : String} {u : User} :
    u ∈ searchMatches s q ↔
      u ∈ getUsers s ∧
        ((∃ l r, l ++ (jsToLower (jsTrim q)).data ++ r = (jsToLower u.firstName).data) ∨
         (∃ l r, l ++ (jsToLower (jsTrim q)).data ++ r = (jsToLower u.lastName).data)) := by
  simp only [searchMatches, List.mem_filter, Bool.or_eq_true, jsIncludes]
  rw [includesL_iff, includesL_iff]

/-! ## C7 and C8: the search handler -/

/-- C7: the search result list consists of exactly those stored records whose
lowercased first or last name contains the trimmed, lowercased query as a
contiguous substring; in particular, querying "an" against the store holding
the Anna and Bob records returns only the Anna record. -/
theorem search_returns_exact_matches (s : Store) (q : String) :
    (∀ u, u ∈ (searchUsers s q).usersOf ↔
        u ∈ getUsers s ∧
          ((∃ l r, l ++ (jsToLower (jsTrim q)).data ++ r = (jsToLower u.firstName).data) ∨
           (∃ l r, l ++ (jsToLower (jsTrim q)).data ++ r = (jsToLower u.lastName).data))) ∧
    (searchUsers annaBobStore "an").usersOf = [annaUser] := by
  constructor
  · intro u
    show u ∈ (if (searchMatches s q).length > 0 then
        Rendered.searchView 200 (searchMatches s q) none
      else Rendered.searchView 404 [] (some "404 - No users found.")).usersOf ↔ _
    by_cases hlen : (searchMatches s q).length > 0
    · rw [if_pos hlen]
      show u ∈ searchMatches s q ↔ _
      exact mem_searchMatches_iff
    · rw [if_neg hlen]
      have hnil : searchMatches s q = [] :=
        List.length_eq_zero.mp (Nat.eq_zero_of_not_pos hlen)
      show u ∈ ([] : List User) ↔ _
      constructor
      · intro hu
        exact absurd hu (List.not_mem_nil u)
      · intro hu
        have : u ∈ searchMatches s q := mem_searchMatches_iff.mpr hu
        rw [hnil] at this
        exact absurd this (List.not_mem_nil u)
  · decide

/-- C8: zero matches produce the distinguishable outcome — status 404 with
an empty user list and the not-found message — while at least one match
produces status 200 with the match list and no message. -/
theorem search_zero_match_distinguished (s : Store) (q : String) :
    (searchMatches s q = [] →
      searchUsers s q = Rendered.searchView 404 [] (some "404 - No users found.")) ∧
    (searchMatches s q ≠ [] →
      searchUsers s q = Rendered.searchView 200 (searchMatches s q) none) := by
  constructor
  · intro h
    show (if (searchMatches s q).length > 0 then _ else _) = _
    rw [h]
    rfl
  · intro h
    have hp : (searchMatches s q).length > 0 := List.length_pos.mpr h
    show (if (searchMatches s q).length > 0 then _ else _) = _
    rw [if_pos hp]

/-- Witness for C8 at a concrete input: the query "zz" matches neither Anna
nor Bob and yields the 404 outcome. -/
theorem search_zero_match_witness :
    searchUsers annaBobStore "zz"
      = Rendered.searchView 404 [] (some "404 - No users found.") :=
  (search_zero_match_distinguished annaBobStore "zz").1 (by decide)

/-! ## Reachable-state invariant of the store -/

theorem insertSorted_keys_sorted (k : Nat) (v : User) :
    ∀ l : List (Nat × User), List.Pairwise (· < ·) (l.map Prod.fst) →
      List.Pairwise (· < ·) ((insertSorted k v l).map Prod.fst) := by
  intro l
  induction l with
  | nil => intro _; simp [insertSorted]
  | cons hd tl ih =>
    obtain ⟨k2, v2⟩ := hd
    intro hs
    rw [List.map_cons, List.pairwise_cons] at hs
    obtain ⟨hhead, htail⟩ := hs
    by_cases hlt : k < k2
    · simp only [insertSorted, if_pos hlt, List.map_cons]
      refine List.pairwise_cons.mpr ⟨?_, List.pairwise_cons.mpr ⟨hhead, htail⟩⟩
      intro x hx
      rcases List.mem_cons.mp hx with rfl | hx2
      · exact hlt
      · exact Nat.lt_trans hlt (hhead x hx2)
    · by_cases heq : k = k2
      · simp only [insertSorted, if_neg hlt, if_pos heq, List.map_cons]
        refine List.pairwise_cons.mpr ⟨?_, htail⟩
        intro x hx
        rw [heq]
        exact hhead x hx
      · simp only [insertSorted, if_neg hlt, if_neg heq, List.map_cons]
        refine List.pairwise_cons.mpr ⟨?_, ih htail⟩
        intro x hx
        rcases List.mem_map.mp hx with ⟨p, hp, rfl⟩
        rcases mem_insertSorted hp with rfl | hp2
        · exact Nat.lt_of_le_of_ne (Nat.le_of_not_lt hlt) (fun h => heq h.symm)
        · exact hhead p.1 (List.mem_map.mpr ⟨p, hp2, rfl⟩)

/-- The invariant over reachable states: storage keys strictly sorted, every
record carries its key as id, and the ids the store has handed out via
`addUser` are all below the counter and strictly increasing in assignment
order. -/
def StoreInv (s : Store) (as : List Nat) : Prop :=
  List.Pairwise (· < ·) (s.storage.map Prod.fst) ∧
  (∀ p ∈ s.storage, p.2.id = p.1) ∧
  (∀ a ∈ as, a < s.id) ∧
  List.Pairwise (· < ·) as

theorem storeInv_apply {s : Store} {as : List Nat} (h : StoreInv s as) (op : Op) :
    StoreInv (applyOpA (s, as) op).1 (applyOpA (s, as) op).2 := by
  obtain ⟨hsort, hidk, hlt, hasort⟩ := h
  cases op with
  | add f =>
    refine ⟨insertSorted_keys_sorted _ _ _ hsort, ?_, ?_, ?_⟩
    · intro p hp
      rcases mem_insertSorted hp with rfl | hp2
      · rfl
      · exact hidk p hp2
    · intro a ha
      rcases List.mem_append.mp ha with ha2 | ha2
      · exact Nat.lt_trans (hlt a ha2) (Nat.lt_succ_self _)
      · rw [List.mem_singleton.mp ha2]
        exact Nat.lt_succ_self _
    · refine List.pairwise_append.mpr ⟨hasort, List.pairwise_singleton _ _, ?_⟩
      intro a ha b hb
      rw [List.mem_singleton.mp hb]
      exact hlt a ha
  | update i f =>
    refine ⟨insertSorted_keys_sorted _ _ _ hsort, ?_, hlt, hasort⟩
    intro p hp
    rcases mem_insertSorted hp with rfl | hp2
    · rfl
    · exact hidk p hp2
  | del i =>
    refine ⟨?_, ?_, hlt, hasort⟩
    · exact List.Pairwise.sublist ((List.filter_sublist _).map Prod.fst) hsort
    · intro p hp
      exact hidk p (List.mem_of_mem_filter hp)

theorem storeInv_run (ops : List Op) : StoreInv (runStore ops) (runAssigned ops) := by
  suffices h : ∀ (l : List Op) (s : Store) (as : List Nat), StoreInv s as →
      StoreInv (l.foldl applyOpA (s, as)).1 (l.foldl applyOpA (s, as)).2 by
    exact h ops emptyStore [] ⟨by simp [emptyStore], by simp [emptyStore],
      by simp, by simp⟩
  intro l
  induction l with
  | nil => intro s as h; exact h
  | cons op rest ih =>
    intro s as h
    simp only [List.foldl_cons]
    have h2 := storeInv_apply h op
    rcases hp : applyOpA (s, as) op with ⟨s2, as2⟩
    rw [hp] at h2
    exact ih s2 as2 h2

/-! ## C3: id uniqueness and monotonicity -/

/-- C3 counterexample: id 0 is assigned by add and holds a record; after
deletion it is absent; but a subsequent `update` at id 0 makes a record hold
id 0 again — the id is reassigned after the record holding it was deleted,
refuting the claim over add/update/delete sequences. -/
theorem id_reuse_after_delete_counterexample :
    getUser (runStore [Op.add sampleFields]) 0 = some (mkUser 0 sampleFields) ∧
    getUser (runStore [Op.add sampleFields, Op.del 0]) 0 = none ∧
    getUser (runStore [Op.add sampleFields, Op.del 0, Op.update 0 sampleFields2]) 0
      = some (mkUser 0 sampleFields2) := by
  decide

/-- C3 amended: in every state reachable by add/update/delete sequences the
record ids are pairwise distinct, and the ids assigned by `addUser` are
handed out in strictly increasing order (so `addUser` itself never reuses an
id, even after deletion); `updateUser`, however, writes at its given id
unconditionally, so an update can make a deleted id hold a record again. -/
theorem store_ids_distinct_add_increasing (ops : List Op) :
    List.Pairwise (· ≠ ·) ((runStore ops).storage.map (fun p => p.2.id)) ∧
    List.Pairwise (· < ·) (runAssigned ops) := by
  obtain ⟨hsort, hidk, _, hasort⟩ := storeInv_run ops
  constructor
  · have hmap : ((runStore ops).storage.map (fun p => p.2.id))
        = (runStore ops).storage.map Prod.fst := by
      apply List.map_congr_left
      intro p hp
      exact hidk p hp
    rw [hmap]
    exact hsort.imp (fun h => Nat.ne_of_lt h)
  · exact hasort

/-! ## C6: a valid create submission -/

/-- C6: for every submission whose trimmed first and last names are 1–10
alphabetic characters and whose email, age and bio pass their rules, the
create handler redirects to `/`, the new record's id (the counter value) is
strictly greater than every id the store assigned before, and the record —
built from the sanitized fields — is afterwards returned by `getUser` of
that id and contained in `getUsers`. -/
theorem create_valid_assigns_fresh_id (ops : List Op) (raw : Body)
    (hfa : isAlphaStr (sanitize raw).firstName = true)
    (hfl : lenOK (sanitize raw).firstName = true)
    (hla : isAlphaStr (sanitize raw).lastName = true)
    (hll : lenOK (sanitize raw).lastName = true)
    (he : isEmail (sanitize raw).email = true)
    (hag : validateAge (sanitize raw).age = [])
    (hbio : validateBio (sanitize raw).bio = []) :
    (usersCreatePost (runStore ops) raw).2 = Rendered.redirectTo "/" ∧
    (∀ a ∈ runAssigned ops, a < (runStore ops).id) ∧
    getUser (usersCreatePost (runStore ops) raw).1 (runStore ops).id
      = some (mkUser (runStore ops).id (sanitize raw)) ∧
    mkUser (runStore ops).id (sanitize raw)
      ∈ getUsers (usersCreatePost (runStore ops) raw).1 := by
  have hval : validateUser (sanitize raw) = [] := by
    simp [validateUser, hfa, hfl, hla, hll, he, hag, hbio]
  have hbranch : usersCreatePost (runStore ops) raw
      = (addUser (runStore ops) (sanitize raw), Rendered.redirectTo "/") := by
    simp [usersCreatePost, hval]
  refine ⟨by rw [hbranch], (storeInv_run ops).2.2.1, ?_, ?_⟩
  · rw [hbranch]
    exact lookupKey_insertSorted _ _ _
  · rw [hbranch]
    show mkUser _ _ ∈ (insertSorted _ _ _).map Prod.snd
    exact List.mem_map.mpr
      ⟨((runStore ops).id, mkUser (runStore ops).id (sanitize raw)),
        self_mem_insertSorted _ _ _, rfl⟩

/-- A concrete operation history for the C6 witness. -/
def demoOps : List Op := [Op.add sampleFields]

/-- A concrete valid submission for the C6 witness (with whitespace that the
sanitizers trim away). -/
def demoGoodBody : Body :=
  { firstName := " Bob ", lastName := "Smith", email := " bob@mail.ca ",
    age := none, bio := none }

/-- Witness for C6 at a concrete input: the new record is retrievable at the
counter id after the valid create. -/
theorem create_valid_assigns_fresh_id_witness :
    getUser (usersCreatePost (runStore demoOps) demoGoodBody).1 (runStore demoOps).id
      = some (mkUser (runStore demoOps).id (sanitize demoGoodBody)) :=
  (create_valid_assigns_fresh_id demoOps demoGoodBody (by decide) (by decide)
    (by decide) (by decide) (by decide) (by decide) (by decide)).2.2.1

end ExpressForms
